import Mathlib

/-!
Verification of the task-management backend's authorization and
task-lifecycle policy, shallowly embedded from the Express route handlers
(`routes/tasks.js`, `routes/users.js`) and the Mongoose `Task` schema.

User and task identifiers are modelled as natural numbers, timestamps as
integers, and the persistent store (tasks, task documents, registered
users, stored file blobs) as an explicit state record threaded through
each route handler.  Real-time socket emissions are modelled as a list of
events produced by each handler.
-/

namespace TaskApi

/-- Role of an authenticated principal (`user.role` in the source). -/
inductive Role
  | user
  | admin
deriving DecidableEq, Repr

/-- An authenticated principal, as attached to `req.user` by the auth
middleware: an identifier and a role. -/
structure Principal where
  id : Nat
  role : Role
deriving DecidableEq, Repr

/-- Task status enum of the Mongoose `Task` schema. -/
inductive Status
  | pending
  | inProgress
  | completed
deriving DecidableEq, Repr

/-- Task priority enum of the Mongoose `Task` schema. -/
inductive Priority
  | low
  | medium
  | high
deriving DecidableEq, Repr

/-- A task record, following the Mongoose `Task` schema: `dueDate` is an
optional timestamp, `assignedTo` an optional user id (the schema default
is `null`), `documents` the list of attached `TaskDocument` ids. -/
structure Task where
  id : Nat
  title : String
  description : String
  status : Status
  priority : Priority
  dueDate : Option Int
  assignedTo : Option Nat
  createdBy : Nat
  documents : List Nat
deriving DecidableEq, Repr

/-- A task-document record, following the Mongoose `TaskDocument` schema
(fields not consulted by any route decision are omitted). -/
structure TaskDocument where
  id : Nat
  taskId : Nat
  filePath : String
  uploadedBy : Nat
deriving DecidableEq, Repr

/-- An uploaded file as delivered by the multipart middleware: its stored
path and declared MIME type. -/
structure FileUpload where
  path : String
  mimeType : String
deriving DecidableEq, Repr

/-- A JavaScript string interpolated into a room name `user_<s>`.  Two
disjoint kinds occur in the emission code: the hex rendering of an id
(`ObjectId.prototype.toString`, also the raw body string of the create
route) and the `util.inspect` rendering of a populated user document
(`Document.prototype.toString`, of the shape
`{ _id: new ObjectId(...), email: ... }`).  An inspect string begins
with a brace and a hex id with a hex digit, so the two kinds are never
equal; the embedding keeps them as distinct constructors, eliding the
rendered text. -/
inductive JsStr
  | idStr (u : Nat)
  | docStr (u : Nat)
deriving DecidableEq, Repr

/-- A socket event emitted to the room `user_<room>`: `taskAssigned` or
`taskUpdated`, carrying the task id.  A user's sockets join the room
named by the hex rendering of their id, so an event reaches user `u`
exactly when its room is `JsStr.idStr u`. -/
inductive Event
  | taskAssigned (room : JsStr) (taskId : Nat)
  | taskUpdated (room : JsStr) (taskId : Nat)
deriving DecidableEq, Repr

/-- The persistent state visible to the route handlers: the task
collection, the task-document collection, the registered user ids, the
set of stored file blobs (by path), and a fresh-id counter standing for
database id generation. -/
structure St where
  tasks : List Task
  docs : List TaskDocument
  users : List Nat
  blobs : List String
  nextId : Nat
deriving DecidableEq, Repr

/-- `Task.findById`: first task in the collection with the given id. -/
def findTask (st : St) (tid : Nat) : Option Task :=
  st.tasks.find? (fun t => t.id = tid)

/-- `TaskDocument.findOne({ _id: documentId, taskId: id })`. -/
def findDoc (st : St) (tid : Nat) (docId : Nat) : Option TaskDocument :=
  st.docs.find? (fun d => d.id = docId && d.taskId = tid)

/-- The spec's visibility predicate, written exactly as the spec states
it: `canView(P,T) == (P.role==admin OR T.createdBy==P.id OR
T.assignedTo==P.id)`. -/
def canView (p : Principal) (t : Task) : Bool :=
  decide (p.role = Role.admin) || decide (t.createdBy = p.id) ||
    decide (t.assignedTo = some p.id)

/-- The spec's deletion predicate, written exactly as the spec states it:
`canDelete(P,T) == (P.role==admin OR T.createdBy==P.id)`. -/
def canDelete (p : Principal) (t : Task) : Bool :=
  decide (p.role = Role.admin) || decide (t.createdBy = p.id)

/-- Result of `GET /api/tasks/:id`. -/
inductive GetResult
  | ok (t : Task)
  | notFound
  | accessDenied
deriving DecidableEq, Repr

/-- Handler of `GET /api/tasks/:id`: look the task up, then deny with 403
unless the requester is an admin, the assignee (`task.assignedTo?.equals`,
false when `assignedTo` is null), or the creator. -/
def getTaskById (p : Principal) (tid : Nat) (st : St) : GetResult :=
  match findTask st tid with
  | none => GetResult.notFound
  | some task =>
    if p.role ≠ Role.admin ∧ task.assignedTo ≠ some p.id ∧
        task.createdBy ≠ p.id then
      GetResult.accessDenied
    else
      GetResult.ok task

/-- The structured query filters of `GET /api/tasks` that the handler
copies into the database query (the free-text search clause is a regex
filter on title/description and is orthogonal to access control). -/
structure ListFilter where
  status : Option Status
  priority : Option Priority
  assignedTo : Option Nat
  createdBy : Option Nat
  dueDateFrom : Option Int
  dueDateTo : Option Int
deriving Repr

/-- Whether a task matches the requested structured filters; each present
filter is a further conjunct of the database query. -/
def matchesFilter (f : ListFilter) (t : Task) : Bool :=
  (match f.status with
   | none => true
   | some s => decide (t.status = s)) &&
  (match f.priority with
   | none => true
   | some pr => decide (t.priority = pr)) &&
  (match f.assignedTo with
   | none => true
   | some u => decide (t.assignedTo = some u)) &&
  (match f.createdBy with
   | none => true
   | some u => decide (t.createdBy = u)) &&
  (match f.dueDateFrom with
   | none => true
   | some a => match t.dueDate with
     | none => false
     | some d => decide (a ≤ d)) &&
  (match f.dueDateTo with
   | none => true
   | some b => match t.dueDate with
     | none => false
     | some d => decide (d ≤ b))

/-- The base query of `GET /api/tasks`: admins query everything, while a
non-admin query is `$or: [{assignedTo: me}, {createdBy: me}]`. -/
def baseQuery (p : Principal) (t : Task) : Bool :=
  if p.role = Role.admin then true
  else decide (t.assignedTo = some p.id) || decide (t.createdBy = p.id)

/-- Handler of `GET /api/tasks` (pagination and sorting aside): the tasks
matching the base access query conjoined with the requested filters. -/
def listTasks (p : Principal) (f : ListFilter) (st : St) : List Task :=
  st.tasks.filter (fun t => baseQuery p t && matchesFilter f t)

/-- Result of `DELETE /api/tasks/:id`. -/
inductive DelResult
  | ok
  | notFound
  | accessDenied
deriving DecidableEq, Repr

/-- Handler of `DELETE /api/tasks/:id`: 404 when absent; 403 unless admin
or creator; otherwise unlink every owned document's blob (best-effort),
delete the owned document records, and delete the task.  No socket event
is emitted on this route. -/
def deleteTask (p : Principal) (tid : Nat) (st : St) :
    DelResult × St × List Event :=
  match findTask st tid with
  | none => (DelResult.notFound, st, [])
  | some task =>
    if p.role ≠ Role.admin ∧ task.createdBy ≠ p.id then
      (DelResult.accessDenied, st, [])
    else
      let owned := st.docs.filter (fun d => d.taskId = task.id)
      (DelResult.ok,
        { st with
          blobs := st.blobs.filter
            (fun b => !(owned.any (fun d => d.filePath = b))),
          docs := st.docs.filter (fun d => d.taskId ≠ task.id),
          tasks := st.tasks.filter (fun t => t.id ≠ tid) },
        [])

/-- Result of `DELETE /api/users/:id`. -/
inductive UserDelResult
  | adminRequired
  | selfDeletionForbidden
  | userNotFound
  | ok
deriving DecidableEq, Repr

/-- Handler of `DELETE /api/users/:id`.  The route is guarded by the
`adminAuth` middleware.  Modelled from the spec: the `auth`/`adminAuth`
middleware module is not part of the provided sources; per the route's
own description ("Delete user (Admin only)") and the integration test
expecting 403 for a regular user, `adminAuth` rejects any non-admin
principal before the handler runs.  Inside the handler, a requester whose
id equals the target id receives the "You cannot delete your own account"
error (400) before any lookup or deletion. -/
def deleteUser (p : Principal) (uid : Nat) (st : St) : UserDelResult × St :=
  if p.role ≠ Role.admin then
    (UserDelResult.adminRequired, st)
  else if p.id = uid then
    (UserDelResult.selfDeletionForbidden, st)
  else if st.users.contains uid then
    (UserDelResult.ok, { st with users := st.users.filter (fun u => u ≠ uid) })
  else
    (UserDelResult.userNotFound, st)

/-- The Mongoose schema validation run by every `task.save()` (the
default `validateModifiedOnly` is false, so every path with a validator
is re-checked on each save): title required with length 1..255, and the
`dueDate` validator `!date || date > new Date()`. -/
def taskSaveValid (t : Task) (now : Int) : Bool :=
  decide (1 ≤ t.title.length) && decide (t.title.length ≤ 255) &&
    (match t.dueDate with
     | none => true
     | some d => decide (now < d))

/-- Fresh `TaskDocument` records for a batch of uploaded files, with ids
drawn consecutively from the fresh-id counter. -/
def mkDocs (files : List FileUpload) (start : Nat) (tid : Nat)
    (uploader : Nat) : List TaskDocument :=
  match files with
  | [] => []
  | f :: fs =>
    { id := start, taskId := tid, filePath := f.path, uploadedBy := uploader }
      :: mkDocs fs (start + 1) tid uploader

/-- Payload of `POST /api/tasks`.  The `createdBy` field models a
`createdBy` value smuggled into the request body; the handler's
destructuring never reads it. -/
structure CreateCmd where
  title : String
  description : Option String
  status : Option Status
  priority : Option Priority
  dueDate : Option Int
  assignedTo : Option Nat
  createdBy : Option Nat
  files : List FileUpload
deriving Repr

/-- The express-validator body checks of `POST /api/tasks` that concern
this model: title non-empty and at most 255 characters, description at
most 2000 characters. -/
def createCmdValid (cmd : CreateCmd) : Bool :=
  decide (cmd.title ≠ "") && decide (cmd.title.length ≤ 255) &&
    (match cmd.description with
     | none => true
     | some s => decide (s.length ≤ 2000))

/-- The `assignedTo` existence check of `POST /api/tasks`: true when an
assignee id was supplied but no such user exists. -/
def badCreateRef (assigned : Option Nat) (users : List Nat) : Bool :=
  match assigned with
  | some u => !(users.contains u)
  | none => false

/-- The socket emission at the end of a successful `POST /api/tasks`:
`taskAssigned` when the new task is assigned to someone other than the
requester.  Here the room is interpolated from the raw body string (the
assignee's id), so the event does reach the assignee's room. -/
def createEvents (assigned : Option Nat) (creator : Nat) (tid : Nat) :
    List Event :=
  match assigned with
  | some u =>
    if u ≠ creator then [Event.taskAssigned (JsStr.idStr u) tid] else []
  | none => []

/-- Result of `POST /api/tasks`. -/
inductive CreateRes
  | tooManyFiles
  | invalidFileType
  | validationFailed
  | invalidReference
  | saveError
  | ok (t : Task)
deriving DecidableEq, Repr

/-- Handler of `POST /api/tasks`.  The multer middleware runs first and
rejects more than 3 files (`files: 3` limit) or any non-PDF file
(`fileFilter`); then body validation; then the `assignedTo` existence
check (400 "Assigned user not found"); then the task is built with
`createdBy` forced to the requester and saved (Mongoose validation);
then the uploaded files become `TaskDocument` records whose ids are
written to `task.documents`; finally `taskAssigned` is emitted when the
task was assigned to someone other than the requester. -/
def createTask (p : Principal) (cmd : CreateCmd) (now : Int) (st : St) :
    CreateRes × St × List Event :=
  if cmd.files.length > 3 then
    (CreateRes.tooManyFiles, st, [])
  else if cmd.files.any (fun f => f.mimeType ≠ "application/pdf") then
    (CreateRes.invalidFileType, st, [])
  else if ¬ createCmdValid cmd then
    (CreateRes.validationFailed, st, [])
  else if badCreateRef cmd.assignedTo st.users then
    (CreateRes.invalidReference, st, [])
  else
    let t0 : Task :=
      { id := st.nextId,
        title := cmd.title,
        description := cmd.description.getD "",
        status := cmd.status.getD Status.pending,
        priority := cmd.priority.getD Priority.medium,
        dueDate := cmd.dueDate,
        assignedTo := cmd.assignedTo,
        createdBy := p.id,
        documents := [] }
    if ¬ taskSaveValid t0 now then
      (CreateRes.saveError, st, [])
    else
      let newDocs := mkDocs cmd.files (st.nextId + 1) st.nextId p.id
      let t1 := { t0 with documents := newDocs.map (fun d => d.id) }
      let ev := createEvents cmd.assignedTo p.id st.nextId
      (CreateRes.ok t1,
        { st with
          tasks := st.tasks ++ [t1],
          docs := st.docs ++ newDocs,
          blobs := st.blobs ++ cmd.files.map (fun f => f.path),
          nextId := st.nextId + 1 + cmd.files.length },
        ev)

/-- Payload of `PUT /api/tasks/:id`.  Each field is absent or present;
for `dueDate` and `assignedTo` a present value may itself be a clearing
one (the handler maps a falsy `dueDate` and the `assignedTo` sentinel
string "null" to null).  `createdBy` models a `createdBy` value in the
body; the handler never reads it. -/
structure UpdateCmd where
  title : Option String
  description : Option String
  status : Option Status
  priority : Option Priority
  dueDate : Option (Option Int)
  assignedTo : Option (Option Nat)
  createdBy : Option Nat
  files : List FileUpload
deriving Repr

/-- The express-validator body checks of `PUT /api/tasks/:id` that
concern this model: a present title non-empty and at most 255
characters, a present description at most 2000 characters. -/
def updateCmdValid (cmd : UpdateCmd) : Bool :=
  (match cmd.title with
   | none => true
   | some s => decide (s ≠ "") && decide (s.length ≤ 255)) &&
  (match cmd.description with
   | none => true
   | some s => decide (s.length ≤ 2000))

/-- The field-application block of `PUT /api/tasks/:id`: each field
present in the payload overwrites the stored value (`createdBy` is not
among the destructured fields and `documents` is untouched here). -/
def applyFields (task : Task) (cmd : UpdateCmd) : Task :=
  { task with
    title := cmd.title.getD task.title,
    description := cmd.description.getD task.description,
    status := cmd.status.getD task.status,
    priority := cmd.priority.getD task.priority,
    dueDate := cmd.dueDate.getD task.dueDate,
    assignedTo := cmd.assignedTo.getD task.assignedTo }

/-- The `assignedTo` existence check of `PUT /api/tasks/:id`
(`if (assignedTo && assignedTo !== 'null')`): true when a real assignee
id was supplied but no such user exists. -/
def badUpdateRef (assigned : Option (Option Nat)) (users : List Nat) :
    Bool :=
  match assigned with
  | some (some u) => !(users.contains u)
  | _ => false

/-- Result of `PUT /api/tasks/:id`. -/
inductive UpdResult
  | tooManyFiles
  | invalidFileType
  | validationFailed
  | notFound
  | accessDenied
  | invalidReference
  | saveError
  | docLimitExceeded
  | ok
deriving DecidableEq, Repr

/-- The task with the requested id replaced by its updated version, as a
Mongoose save of the fetched document leaves every other record
untouched. -/
def replaceTask (tasks : List Task) (tid : Nat) (t1 : Task) : List Task :=
  tasks.map (fun u => if u.id = tid then t1 else u)

/-- `task.populate('assignedTo', 'email')`: resolves the stored assignee
id to its user document, yielding null when the field is null or the
referenced user record no longer exists. -/
def populateAssigned (assigned : Option Nat) (users : List Nat) :
    Option Nat :=
  match assigned with
  | some u => if users.contains u then some u else none
  | none => none

/-- The socket emissions at the end of a successful `PUT /api/tasks/:id`,
taken verbatim from the source order: `oldAssignedTo` was rendered from
the stored ObjectId before the mutation, while `newAssignedTo` is
rendered only after `await task.populate('assignedTo', 'email')`, so it
is the populated user document's inspect string.  `taskAssigned` fires
when `newAssignedTo && newAssignedTo !== oldAssignedTo`, then
`taskUpdated` when `newAssignedTo` is present; both are addressed to the
room named after `newAssignedTo`. -/
def updateEvents (oldAssigned newAssigned : Option JsStr) (tid : Nat) :
    List Event :=
  (match newAssigned with
   | some s => if some s ≠ oldAssigned then [Event.taskAssigned s tid] else []
   | none => []) ++
  (match newAssigned with
   | some s => [Event.taskUpdated s tid]
   | none => [])

/-- Handler of `PUT /api/tasks/:id`, in source order: multer file checks;
body validation; task lookup (404); permission check (admin, creator or
assignee, else 403); `assignedTo` existence check when a real id is
supplied; application of the present fields to the task and `task.save()`
(Mongoose re-validation; a failure is caught and reported without
persisting); then, only if files were uploaded, the document-count check
`currentDocCount + req.files.length > 3` (returning 400 after the field
save has already been persisted) and otherwise the attach and second
save; finally the socket emissions. -/
def updateTask (p : Principal) (tid : Nat) (cmd : UpdateCmd) (now : Int)
    (st : St) : UpdResult × St × List Event :=
  if cmd.files.length > 3 then
    (UpdResult.tooManyFiles, st, [])
  else if cmd.files.any (fun f => f.mimeType ≠ "application/pdf") then
    (UpdResult.invalidFileType, st, [])
  else if ¬ updateCmdValid cmd then
    (UpdResult.validationFailed, st, [])
  else
    match findTask st tid with
    | none => (UpdResult.notFound, st, [])
    | some task =>
      if p.role ≠ Role.admin ∧ task.createdBy ≠ p.id ∧
          task.assignedTo ≠ some p.id then
        (UpdResult.accessDenied, st, [])
      else if badUpdateRef cmd.assignedTo st.users then
        (UpdResult.invalidReference, st, [])
      else
        let t1 := applyFields task cmd
        if ¬ taskSaveValid t1 now then
          (UpdResult.saveError, st, [])
        else
          let st1 := { st with tasks := replaceTask st.tasks tid t1 }
          let ev := updateEvents (task.assignedTo.map JsStr.idStr)
            ((populateAssigned t1.assignedTo st.users).map JsStr.docStr)
            tid
          if cmd.files.length ≠ 0 then
            let currentDocCount :=
              (st1.docs.filter (fun d => d.taskId = tid)).length
            if currentDocCount + cmd.files.length > 3 then
              (UpdResult.docLimitExceeded, st1, [])
            else
              let newDocs := mkDocs cmd.files st1.nextId tid p.id
              let t2 := { t1 with
                documents := t1.documents ++ newDocs.map (fun d => d.id) }
              (UpdResult.ok,
                { st1 with
                  tasks := replaceTask st1.tasks tid t2,
                  docs := st1.docs ++ newDocs,
                  blobs := st1.blobs ++ cmd.files.map (fun f => f.path),
                  nextId := st1.nextId + cmd.files.length },
                ev)
          else
            (UpdResult.ok, st1, ev)

/-- Result of `DELETE /api/tasks/:id/documents/:documentId`. -/
inductive DocDelResult
  | taskNotFound
  | docNotFound
  | accessDenied
  | saveError
  | ok
deriving DecidableEq, Repr

/-- Handler of `DELETE /api/tasks/:id/documents/:documentId`: task lookup
(404), document lookup by id and owning task (404), permission check
(admin, task creator or document uploader, else 403); then the blob is
unlinked best-effort, the document id is filtered out of
`task.documents` and the task saved (Mongoose re-validation; on failure
the blob is already gone but the records stand), and the document record
is deleted. -/
def deleteDocument (p : Principal) (tid : Nat) (docId : Nat) (now : Int)
    (st : St) : DocDelResult × St :=
  match findTask st tid with
  | none => (DocDelResult.taskNotFound, st)
  | some task =>
    match findDoc st tid docId with
    | none => (DocDelResult.docNotFound, st)
    | some document =>
      if p.role ≠ Role.admin ∧ task.createdBy ≠ p.id ∧
          document.uploadedBy ≠ p.id then
        (DocDelResult.accessDenied, st)
      else
        let st1 := { st with
          blobs := st.blobs.filter (fun b => b ≠ document.filePath) }
        let t1 := { task with
          documents := task.documents.filter (fun i => i ≠ document.id) }
        if ¬ taskSaveValid t1 now then
          (DocDelResult.saveError, st1)
        else
          (DocDelResult.ok,
            { st1 with
              tasks := replaceTask st1.tasks tid t1,
              docs := st1.docs.filter (fun d => d.id ≠ document.id) })

/-- A task-policy request: one of the four state-mutating operations on
tasks and their documents. -/
inductive Request
  | createReq (p : Principal) (cmd : CreateCmd) (now : Int)
  | updateReq (p : Principal) (tid : Nat) (cmd : UpdateCmd) (now : Int)
  | deleteReq (p : Principal) (tid : Nat)
  | removeDocReq (p : Principal) (tid : Nat) (docId : Nat) (now : Int)

/-- The state reached by running one request against the store. -/
def applyRequest (r : Request) (st : St) : St :=
  match r with
  | Request.createReq p cmd now => (createTask p cmd now st).2.1
  | Request.updateReq p tid cmd now => (updateTask p tid cmd now st).2.1
  | Request.deleteReq p tid => (deleteTask p tid st).2.1
  | Request.removeDocReq p tid docId now => (deleteDocument p tid docId now st).2

/-- Store invariant: every task and document id is below the fresh-id
counter, task ids are pairwise distinct, document ids are pairwise
distinct, each task's `documents` list is exactly the ids of the
document records owned by it (in collection order), and no task carries
more than 3 documents. -/
def Inv (st : St) : Prop :=
  (∀ t ∈ st.tasks, t.id < st.nextId) ∧
  (∀ d ∈ st.docs, d.id < st.nextId) ∧
  (∀ d ∈ st.docs, d.taskId < st.nextId) ∧
  (st.tasks.map (fun t => t.id)).Nodup ∧
  (st.docs.map (fun d => d.id)).Nodup ∧
  (∀ t ∈ st.tasks,
    t.documents = (st.docs.filter (fun d => d.taskId = t.id)).map
      (fun d => d.id)) ∧
  (∀ t ∈ st.tasks, t.documents.length ≤ 3)

theorem mkDocs_length (files : List FileUpload) (s tid up : Nat) :
    (mkDocs files s tid up).length = files.length := by
  induction files generalizing s with
  | nil => rfl
  | cons f fs ih => simp [mkDocs, ih]

theorem mkDocs_taskId (files : List FileUpload) (s tid up : Nat) :
    ∀ d ∈ mkDocs files s tid up, d.taskId = tid := by
  induction files generalizing s with
  | nil => intro d hd; simp [mkDocs] at hd
  | cons f fs ih =>
    intro d hd
    simp only [mkDocs, List.mem_cons] at hd
    rcases hd with h | h
    · simp [h]
    · exact ih (s + 1) d h

theorem mkDocs_id_bounds (files : List FileUpload) (s tid up : Nat) :
    ∀ d ∈ mkDocs files s tid up, s ≤ d.id ∧ d.id < s + files.length := by
  induction files generalizing s with
  | nil => intro d hd; simp [mkDocs] at hd
  | cons f fs ih =>
    intro d hd
    simp only [mkDocs, List.mem_cons] at hd
    rcases hd with h | h
    · subst h
      refine ⟨Nat.le_refl s, ?_⟩
      simp only [List.length_cons]
      omega
    · have := ih (s + 1) d h
      simp only [List.length_cons]
      omega

theorem mkDocs_ids_nodup (files : List FileUpload) (s tid up : Nat) :
    ((mkDocs files s tid up).map (fun d => d.id)).Nodup := by
  induction files generalizing s with
  | nil => simp [mkDocs]
  | cons f fs ih =>
    simp only [mkDocs, List.map_cons, List.nodup_cons]
    constructor
    · intro hmem
      rcases List.mem_map.mp hmem with ⟨d, hd, hid⟩
      have := mkDocs_id_bounds fs (s + 1) tid up d hd
      omega
    · exact ih (s + 1)

theorem replaceTask_map_id (tasks : List Task) (tid : Nat) (t1 : Task)
    (h : t1.id = tid) :
    (replaceTask tasks tid t1).map (fun t => t.id) =
      tasks.map (fun t => t.id) := by
  unfold replaceTask
  rw [List.map_map]
  apply List.map_congr_left
  intro a _
  by_cases hc : a.id = tid
  · simp [Function.comp, hc, h]
  · simp [Function.comp, hc]

theorem mem_replaceTask (tasks : List Task) (tid : Nat) (t1 : Task) (u : Task)
    (hu : u ∈ replaceTask tasks tid t1) :
    u = t1 ∨ (u ∈ tasks ∧ u.id ≠ tid) := by
  unfold replaceTask at hu
  rcases List.mem_map.mp hu with ⟨a, ha, heq⟩
  by_cases hc : a.id = tid
  · left
    rw [← heq]
    simp [hc]
  · right
    rw [← heq]
    simp only [if_neg hc]
    exact ⟨ha, hc⟩

theorem find?_replaceTask (tasks : List Task) (tid : Nat) (t1 : Task)
    (h1 : t1.id = tid)
    (h2 : (tasks.find? (fun t => t.id = tid)).isSome) :
    (replaceTask tasks tid t1).find? (fun t => t.id = tid) = some t1 := by
  induction tasks with
  | nil => simp [List.find?] at h2
  | cons a l ih =>
    by_cases hc : a.id = tid
    · simp [replaceTask, List.find?, hc, h1]
    · simp only [replaceTask, List.map_cons, if_neg hc] at *
      rw [List.find?_cons_of_neg _ (by simpa using hc)] at h2 ⊢
      exact ih h2

theorem replaceTask_replaceTask (tasks : List Task) (tid : Nat)
    (t1 t2 : Task) (h : t1.id = tid) :
    replaceTask (replaceTask tasks tid t1) tid t2 =
      replaceTask tasks tid t2 := by
  unfold replaceTask
  rw [List.map_map]
  apply List.map_congr_left
  intro a _
  by_cases hc : a.id = tid
  · simp [Function.comp, hc, h]
  · simp [Function.comp, hc]

theorem filter_map_id_comm (l : List TaskDocument) (p : Nat → Bool) :
    ((l.filter (fun d => p d.id)).map (fun d => d.id)) =
      (l.map (fun d => d.id)).filter p := by
  induction l with
  | nil => rfl
  | cons a l ih =>
    by_cases h : p a.id
    · simp [List.filter_cons, h, ih]
    · simp [List.filter_cons, h, ih]

theorem filter_docs_comm (l : List TaskDocument) (p q : TaskDocument → Bool) :
    (l.filter p).filter q = (l.filter q).filter p := by
  induction l with
  | nil => rfl
  | cons a l ih =>
    by_cases hp : p a <;> by_cases hq : q a <;>
      simp [List.filter_cons, hp, hq, ih]

theorem findTask_id (st : St) (tid : Nat) (t : Task)
    (h : findTask st tid = some t) : t.id = tid := by
  have := List.find?_some h
  simpa using this

theorem findTask_mem (st : St) (tid : Nat) (t : Task)
    (h : findTask st tid = some t) : t ∈ st.tasks :=
  List.mem_of_find?_eq_some h

theorem findDoc_spec (st : St) (tid docId : Nat) (d : TaskDocument)
    (h : findDoc st tid docId = some d) :
    d ∈ st.docs ∧ d.id = docId ∧ d.taskId = tid := by
  refine ⟨List.mem_of_find?_eq_some h, ?_⟩
  have := List.find?_some h
  simpa using this

theorem inv_deleteTask (p : Principal) (tid : Nat) (st : St)
    (hInv : Inv st) : Inv (deleteTask p tid st).2.1 := by
  obtain ⟨h1, h2, h3, h4, h5, h6, h7⟩ := hInv
  unfold deleteTask
  cases hfind : findTask st tid with
  | none => exact ⟨h1, h2, h3, h4, h5, h6, h7⟩
  | some task =>
    simp only
    split
    · exact ⟨h1, h2, h3, h4, h5, h6, h7⟩
    · have htid : task.id = tid := findTask_id st tid task hfind
      refine ⟨?_, ?_, ?_, ?_, ?_, ?_, ?_⟩
      · intro t ht
        exact h1 t (List.mem_filter.mp ht).1
      · intro d hd
        exact h2 d (List.mem_filter.mp hd).1
      · intro d hd
        exact h3 d (List.mem_filter.mp hd).1
      · exact List.Nodup.sublist
          (List.Sublist.map _ (List.filter_sublist _)) h4
      · exact List.Nodup.sublist
          (List.Sublist.map _ (List.filter_sublist _)) h5
      · intro t ht
        have hmem := (List.mem_filter.mp ht).1
        have hne : t.id ≠ tid := by
          have := (List.mem_filter.mp ht).2
          simpa using this
        rw [List.filter_filter]
        rw [List.filter_congr (q := fun d => d.taskId = t.id)
          (by
            intro d _
            by_cases hd : d.taskId = t.id
            · simp [hd]
              omega
            · simp [hd])]
        exact h6 t hmem
      · intro t ht
        exact h7 t (List.mem_filter.mp ht).1

theorem inv_deleteDocument (p : Principal) (tid docId : Nat) (now : Int)
    (st : St) (hInv : Inv st) :
    Inv (deleteDocument p tid docId now st).2 := by
  obtain ⟨h1, h2, h3, h4, h5, h6, h7⟩ := hInv
  unfold deleteDocument
  cases hfind : findTask st tid with
  | none => exact ⟨h1, h2, h3, h4, h5, h6, h7⟩
  | some task =>
    simp only
    cases hdoc : findDoc st tid docId with
    | none => exact ⟨h1, h2, h3, h4, h5, h6, h7⟩
    | some document =>
      simp only
      split
      · exact ⟨h1, h2, h3, h4, h5, h6, h7⟩
      · have htid : task.id = tid := findTask_id st tid task hfind
        have hdmem := (findDoc_spec st tid docId document hdoc).1
        have hdid : document.id = docId :=
          (findDoc_spec st tid docId document hdoc).2.1
        have hdtid : document.taskId = tid :=
          (findDoc_spec st tid docId document hdoc).2.2
        have htmem : task ∈ st.tasks := findTask_mem st tid task hfind
        split
        · exact ⟨h1, h2, h3, h4, h5, h6, h7⟩
        · dsimp only
          refine ⟨?_, ?_, ?_, ?_, ?_, ?_, ?_⟩
          · intro t ht
            rcases mem_replaceTask _ _ _ _ ht with h | ⟨hmem, _⟩
            · subst h
              exact h1 task htmem
            · exact h1 t hmem
          · intro d hd
            exact h2 d (List.mem_filter.mp hd).1
          · intro d hd
            exact h3 d (List.mem_filter.mp hd).1
          · exact (replaceTask_map_id st.tasks tid
              { task with documents :=
                  task.documents.filter (fun i => decide (i ≠ document.id)) }
              htid).symm ▸ h4
          · exact List.Nodup.sublist
              (List.Sublist.map _ (List.filter_sublist _)) h5
          · intro t ht
            rcases mem_replaceTask _ _ _ _ ht with h | ⟨hmem, hne⟩
            · subst h
              show task.documents.filter (fun i => decide (i ≠ document.id)) =
                ((st.docs.filter (fun d => decide (d.id ≠ document.id))).filter
                  (fun d => decide (d.taskId = task.id))).map (fun d => d.id)
              rw [filter_docs_comm,
                filter_map_id_comm
                  (st.docs.filter (fun d => decide (d.taskId = task.id)))
                  (fun i => decide (i ≠ document.id)),
                ← h6 task htmem]
            · show t.documents =
                ((st.docs.filter (fun d => decide (d.id ≠ document.id))).filter
                  (fun d => decide (d.taskId = t.id))).map (fun d => d.id)
              rw [filter_docs_comm]
              rw [List.filter_congr (q := fun d : TaskDocument => true)
                (by
                  intro d hdmem2
                  have hd1 := (List.mem_filter.mp hdmem2).1
                  have hd2 : d.taskId = t.id := by
                    have := (List.mem_filter.mp hdmem2).2
                    simpa using this
                  by_cases heq : d.id = document.id
                  · exfalso
                    have := List.inj_on_of_nodup_map h5 hd1 hdmem heq
                    subst this
                    omega
                  · simp [heq])]
              rw [List.filter_true]
              exact h6 t hmem
          · intro t ht
            rcases mem_replaceTask _ _ _ _ ht with h | ⟨hmem, _⟩
            · subst h
              calc (task.documents.filter (fun i => i ≠ document.id)).length
                  ≤ task.documents.length := List.length_filter_le _ _
                _ ≤ 3 := h7 task htmem
            · exact h7 t hmem

theorem inv_createTask (p : Principal) (cmd : CreateCmd) (now : Int)
    (st : St) (hInv : Inv st) : Inv (createTask p cmd now st).2.1 := by
  obtain ⟨h1, h2, h3, h4, h5, h6, h7⟩ := hInv
  unfold createTask
  split
  · exact ⟨h1, h2, h3, h4, h5, h6, h7⟩
  · split
    · exact ⟨h1, h2, h3, h4, h5, h6, h7⟩
    · split
      · exact ⟨h1, h2, h3, h4, h5, h6, h7⟩
      · split
        · exact ⟨h1, h2, h3, h4, h5, h6, h7⟩
        · dsimp only
          split
          · exact ⟨h1, h2, h3, h4, h5, h6, h7⟩
          · rename_i hcount _ _ _ _
            have hk : cmd.files.length ≤ 3 := by omega
            unfold Inv
            dsimp only
            refine ⟨?_, ?_, ?_, ?_, ?_, ?_, ?_⟩
            · intro t ht
              rcases List.mem_append.mp ht with h | h
              · have := h1 t h
                omega
              · have : t.id = st.nextId := by
                  rcases List.mem_singleton.mp h with rfl
                  rfl
                omega
            · intro d hd
              rcases List.mem_append.mp hd with h | h
              · have := h2 d h
                omega
              · have := mkDocs_id_bounds cmd.files (st.nextId + 1)
                  st.nextId p.id d h
                omega
            · intro d hd
              rcases List.mem_append.mp hd with h | h
              · have := h3 d h
                omega
              · have := mkDocs_taskId cmd.files (st.nextId + 1)
                  st.nextId p.id d h
                omega
            · rw [List.map_append]
              refine List.Nodup.append h4 (by simp) ?_
              intro a ha hb
              rcases List.mem_map.mp ha with ⟨t2, ht2, heq⟩
              have hlt := h1 t2 ht2
              have hb2 : a = st.nextId := by simpa using hb
              omega
            · rw [List.map_append]
              refine List.Nodup.append h5
                (mkDocs_ids_nodup cmd.files (st.nextId + 1) st.nextId p.id) ?_
              intro a ha hb
              rcases List.mem_map.mp ha with ⟨d, hd, rfl⟩
              rcases List.mem_map.mp hb with ⟨e, he, heq⟩
              have hlt := h2 d hd
              have := mkDocs_id_bounds cmd.files (st.nextId + 1)
                st.nextId p.id e he
              omega
            · intro t ht
              rcases List.mem_append.mp ht with h | h
              · have hnil : (mkDocs cmd.files (st.nextId + 1) st.nextId
                    p.id).filter (fun d => decide (d.taskId = t.id)) = [] :=
                  List.filter_eq_nil_iff.mpr
                    (by
                      intro d hd
                      have h9 := mkDocs_taskId cmd.files (st.nextId + 1)
                        st.nextId p.id d hd
                      have := h1 t h
                      simp only [h9, decide_eq_true_eq]
                      omega)
                rw [List.filter_append, hnil, List.append_nil]
                exact h6 t h
              · rcases List.mem_singleton.mp h with rfl
                dsimp only
                have hnil : st.docs.filter
                    (fun d => decide (d.taskId = st.nextId)) = [] :=
                  List.filter_eq_nil_iff.mpr
                    (by
                      intro d hd
                      have := h3 d hd
                      simp only [decide_eq_true_eq]
                      omega)
                have hself : (mkDocs cmd.files (st.nextId + 1) st.nextId
                    p.id).filter (fun d => decide (d.taskId = st.nextId)) =
                    mkDocs cmd.files (st.nextId + 1) st.nextId p.id :=
                  List.filter_eq_self.mpr
                    (by
                      intro d hd
                      have := mkDocs_taskId cmd.files (st.nextId + 1)
                        st.nextId p.id d hd
                      simp [this])
                rw [List.filter_append, hnil, List.nil_append, hself]
            · intro t ht
              rcases List.mem_append.mp ht with h | h
              · exact h7 t h
              · rcases List.mem_singleton.mp h with rfl
                show ((mkDocs cmd.files (st.nextId + 1) st.nextId p.id).map
                  (fun d => d.id)).length ≤ 3
                rw [List.length_map, mkDocs_length]
                exact hk

theorem inv_replace (st : St) (tid : Nat) (task t1 : Task)
    (hInv : Inv st) (hfind : findTask st tid = some task)
    (hid : t1.id = task.id) (hdocs : t1.documents = task.documents) :
    Inv { st with tasks := replaceTask st.tasks tid t1 } := by
  obtain ⟨h1, h2, h3, h4, h5, h6, h7⟩ := hInv
  have htid : task.id = tid := findTask_id st tid task hfind
  have htmem : task ∈ st.tasks := findTask_mem st tid task hfind
  refine ⟨?_, h2, h3, ?_, h5, ?_, ?_⟩
  · intro t ht
    rcases mem_replaceTask _ _ _ _ ht with h | ⟨hmem, _⟩
    · subst h
      rw [hid]
      exact h1 task htmem
    · exact h1 t hmem
  · show ((replaceTask st.tasks tid t1).map (fun t => t.id)).Nodup
    rw [replaceTask_map_id _ _ _ (hid.trans htid)]
    exact h4
  · intro t ht
    rcases mem_replaceTask _ _ _ _ ht with h | ⟨hmem, _⟩
    · subst h
      rw [hdocs, hid]
      exact h6 task htmem
    · exact h6 t hmem
  · intro t ht
    rcases mem_replaceTask _ _ _ _ ht with h | ⟨hmem, _⟩
    · subst h
      rw [hdocs]
      exact h7 task htmem
    · exact h7 t hmem

theorem inv_updateTask (p : Principal) (tid : Nat) (cmd : UpdateCmd)
    (now : Int) (st : St) (hInv : Inv st) :
    Inv (updateTask p tid cmd now st).2.1 := by
  obtain ⟨h1, h2, h3, h4, h5, h6, h7⟩ := hInv
  unfold updateTask
  split
  · exact ⟨h1, h2, h3, h4, h5, h6, h7⟩
  · split
    · exact ⟨h1, h2, h3, h4, h5, h6, h7⟩
    · split
      · exact ⟨h1, h2, h3, h4, h5, h6, h7⟩
      · cases hfind : findTask st tid with
        | none => exact ⟨h1, h2, h3, h4, h5, h6, h7⟩
        | some task =>
          have htid : task.id = tid := findTask_id st tid task hfind
          have htmem : task ∈ st.tasks := findTask_mem st tid task hfind
          simp only
          split
          · exact ⟨h1, h2, h3, h4, h5, h6, h7⟩
          · split
            · exact ⟨h1, h2, h3, h4, h5, h6, h7⟩
            · split
              · exact ⟨h1, h2, h3, h4, h5, h6, h7⟩
              · split
                · split
                  · exact inv_replace st tid task (applyFields task cmd)
                      ⟨h1, h2, h3, h4, h5, h6, h7⟩ hfind rfl rfl
                  · rename_i hfiles0 hcount
                    rw [Nat.not_lt] at hcount
                    rw [replaceTask_replaceTask st.tasks tid _ _
                      (show (applyFields task cmd).id = tid from htid)]
                    have hdoclen : task.documents.length =
                        (st.docs.filter
                          (fun d => decide (d.taskId = tid))).length := by
                      rw [h6 task htmem, List.length_map, htid]
                    unfold Inv
                    dsimp only
                    refine ⟨?_, ?_, ?_, ?_, ?_, ?_, ?_⟩
                    · intro t ht
                      rcases mem_replaceTask _ _ _ _ ht with h | ⟨hmem, _⟩
                      · subst h
                        show task.id < st.nextId + cmd.files.length
                        have := h1 task htmem
                        omega
                      · have := h1 t hmem
                        omega
                    · intro d hd
                      rcases List.mem_append.mp hd with h | h
                      · have := h2 d h
                        omega
                      · have := mkDocs_id_bounds cmd.files st.nextId
                          tid p.id d h
                        omega
                    · intro d hd
                      rcases List.mem_append.mp hd with h | h
                      · have := h3 d h
                        omega
                      · have h9 := mkDocs_taskId cmd.files st.nextId
                          tid p.id d h
                        have := h1 task htmem
                        omega
                    · exact (replaceTask_map_id st.tasks tid
                        { applyFields task cmd with
                          documents := (applyFields task cmd).documents ++
                            (mkDocs cmd.files st.nextId tid p.id).map
                              (fun d => d.id) } htid).symm ▸ h4
                    · rw [List.map_append]
                      refine List.Nodup.append h5
                        (mkDocs_ids_nodup cmd.files st.nextId tid p.id) ?_
                      intro a ha hb
                      rcases List.mem_map.mp ha with ⟨d, hd, heq⟩
                      rcases List.mem_map.mp hb with ⟨e, he, heq2⟩
                      have hlt := h2 d hd
                      have := mkDocs_id_bounds cmd.files st.nextId
                        tid p.id e he
                      omega
                    · intro t ht
                      rcases mem_replaceTask _ _ _ _ ht with h | ⟨hmem, hne⟩
                      · subst h
                        show task.documents ++
                            (mkDocs cmd.files st.nextId tid p.id).map
                              (fun d => d.id) =
                          ((st.docs ++ mkDocs cmd.files st.nextId tid
                            p.id).filter
                              (fun d => decide (d.taskId = task.id))).map
                            (fun d => d.id)
                        have hself : (mkDocs cmd.files st.nextId tid
                            p.id).filter
                            (fun d => decide (d.taskId = task.id)) =
                            mkDocs cmd.files st.nextId tid p.id :=
                          List.filter_eq_self.mpr
                            (by
                              intro d hd
                              have := mkDocs_taskId cmd.files st.nextId
                                tid p.id d hd
                              simp [this, htid])
                        rw [List.filter_append, hself, List.map_append,
                          ← h6 task htmem]
                      · show t.documents =
                          ((st.docs ++ mkDocs cmd.files st.nextId tid
                            p.id).filter
                              (fun d => decide (d.taskId = t.id))).map
                            (fun d => d.id)
                        have hnil : (mkDocs cmd.files st.nextId tid
                            p.id).filter
                            (fun d => decide (d.taskId = t.id)) = [] :=
                          List.filter_eq_nil_iff.mpr
                            (by
                              intro d hd
                              have := mkDocs_taskId cmd.files st.nextId
                                tid p.id d hd
                              simp only [this, decide_eq_true_eq]
                              omega)
                        rw [List.filter_append, hnil, List.append_nil]
                        exact h6 t hmem
                    · intro t ht
                      rcases mem_replaceTask _ _ _ _ ht with h | ⟨hmem, _⟩
                      · subst h
                        show (task.documents ++
                          (mkDocs cmd.files st.nextId tid p.id).map
                            (fun d => d.id)).length ≤ 3
                        rw [List.length_append, List.length_map,
                          mkDocs_length]
                        omega
                      · exact h7 t hmem
                · exact inv_replace st tid task (applyFields task cmd)
                    ⟨h1, h2, h3, h4, h5, h6, h7⟩ hfind rfl rfl

theorem inv_applyRequest (r : Request) (st : St) (hInv : Inv st) :
    Inv (applyRequest r st) := by
  cases r with
  | createReq p cmd now => exact inv_createTask p cmd now st hInv
  | updateReq p tid cmd now => exact inv_updateTask p tid cmd now st hInv
  | deleteReq p tid => exact inv_deleteTask p tid st hInv
  | removeDocReq p tid docId now =>
    exact inv_deleteDocument p tid docId now st hInv

theorem getTaskById_spec (p : Principal) (st : St) (tid : Nat) (t : Task)
    (hfind : findTask st tid = some t) :
    getTaskById p tid st =
      if canView p t = true then GetResult.ok t
      else GetResult.accessDenied := by
  unfold getTaskById canView
  rw [hfind]
  by_cases h1 : p.role = Role.admin <;>
    by_cases h2 : t.createdBy = p.id <;>
      by_cases h3 : t.assignedTo = some p.id <;>
        simp [h1, h2, h3]

/-- Example store for concrete instantiations: one task created by user 1
and assigned to user 2, no documents, users 1..3 registered. -/
def wTask : Task :=
  { id := 10, title := "T1", description := "", status := Status.pending,
    priority := Priority.medium, dueDate := some 100, assignedTo := some 2,
    createdBy := 1, documents := [] }

/-- Example store holding `wTask`. -/
def wSt : St :=
  { tasks := [wTask], docs := [], users := [1, 2, 3], blobs := [],
    nextId := 20 }

/-- Example filter requesting everything. -/
def wFilter : ListFilter :=
  { status := none, priority := none, assignedTo := none, createdBy := none,
    dueDateFrom := none, dueDateTo := none }

/-- C1: for an existing task, the single-task read succeeds exactly when
the requester satisfies the spec's `canView` disjunction (admin, creator
or assignee) and is denied with 403 exactly otherwise; the list endpoint
returns to a non-admin exactly the stored tasks satisfying the same
disjunction, subject to the requested filters. -/
theorem read_and_list_follow_visibility (p : Principal) (st : St)
    (tid : Nat) (t : Task) (f : ListFilter)
    (hfind : findTask st tid = some t) :
    (getTaskById p tid st = GetResult.ok t ↔ canView p t = true) ∧
    (getTaskById p tid st = GetResult.accessDenied ↔ canView p t = false) ∧
    (p.role ≠ Role.admin →
      ∀ u, u ∈ listTasks p f st ↔
        u ∈ st.tasks ∧ canView p u = true ∧ matchesFilter f u = true) := by
  refine ⟨?_, ?_, ?_⟩
  · rw [getTaskById_spec p st tid t hfind]
    by_cases h : canView p t = true <;> simp [h]
  · rw [getTaskById_spec p st tid t hfind]
    by_cases h : canView p t = true <;> simp [h]
  · intro hrole u
    have hb : baseQuery p u = canView p u := by
      simp only [baseQuery, canView, if_neg hrole,
        decide_eq_false (by exact hrole), Bool.false_or]
      exact Bool.or_comm _ _
    simp only [listTasks, List.mem_filter, Bool.and_eq_true, hb]

/-- C1 witness: user 2 (the assignee) can read task 10 and sees it in
the unfiltered list; user 3 (unrelated) is denied. -/
theorem read_and_list_follow_visibility_witness :
    (getTaskById { id := 2, role := Role.user } 10 wSt =
        GetResult.ok wTask ↔ canView { id := 2, role := Role.user }
          wTask = true) ∧
    (getTaskById { id := 3, role := Role.user } 10 wSt =
        GetResult.accessDenied ↔ canView { id := 3, role := Role.user }
          wTask = false) ∧
    (∀ u, u ∈ listTasks { id := 2, role := Role.user } wFilter wSt ↔
      u ∈ wSt.tasks ∧ canView { id := 2, role := Role.user } u = true ∧
        matchesFilter wFilter u = true) :=
  ⟨(read_and_list_follow_visibility { id := 2, role := Role.user } wSt 10
      wTask wFilter rfl).1,
   (read_and_list_follow_visibility { id := 3, role := Role.user } wSt 10
      wTask wFilter rfl).2.1,
   (read_and_list_follow_visibility { id := 2, role := Role.user } wSt 10
      wTask wFilter rfl).2.2 (by decide)⟩

/-- C2: for an existing task, deletion succeeds exactly when the
requester satisfies the spec's `canDelete` disjunction (admin or
creator), is refused with 403 exactly otherwise, and in particular a
viewer who is not admin/creator (an assignee-only principal) is denied
with the store untouched and no event emitted. -/
theorem delete_requires_creator_or_admin (p : Principal) (st : St)
    (tid : Nat) (t : Task) (hfind : findTask st tid = some t) :
    ((deleteTask p tid st).1 = DelResult.ok ↔ canDelete p t = true) ∧
    ((deleteTask p tid st).1 = DelResult.accessDenied ↔
      canDelete p t = false) ∧
    (canDelete p t = false → canView p t = true →
      deleteTask p tid st = (DelResult.accessDenied, st, [])) := by
  unfold deleteTask
  rw [hfind]
  by_cases h1 : p.role = Role.admin <;> by_cases h2 : t.createdBy = p.id <;>
    simp [canDelete, canView, h1, h2]

/-- C2 witness: assignee-only user 2 may view task 10 but its deletion
is refused, while creator 1 may delete it. -/
theorem delete_requires_creator_or_admin_witness :
    deleteTask { id := 2, role := Role.user } 10 wSt =
      (DelResult.accessDenied, wSt, []) ∧
    ((deleteTask { id := 1, role := Role.user } 10 wSt).1 =
      DelResult.ok ↔ canDelete { id := 1, role := Role.user } wTask =
        true) :=
  ⟨(delete_requires_creator_or_admin { id := 2, role := Role.user } wSt 10
      wTask rfl).2.2 (by decide) (by decide),
   (delete_requires_creator_or_admin { id := 1, role := Role.user } wSt 10
      wTask rfl).1⟩

/-- C9: deleting a nonexistent task id returns 404 and has no side
effects: the store (task records, document records, blobs) is returned
unchanged and no notification event is emitted. -/
theorem delete_missing_task_noop (p : Principal) (tid : Nat) (st : St)
    (h : findTask st tid = none) :
    deleteTask p tid st = (DelResult.notFound, st, []) := by
  unfold deleteTask
  rw [h]

/-- C9 witness: deleting absent task id 99 is a 404 no-op. -/
theorem delete_missing_task_noop_witness :
    deleteTask { id := 1, role := Role.admin } 99 wSt =
      (DelResult.notFound, wSt, []) :=
  delete_missing_task_noop { id := 1, role := Role.admin } 99 wSt rfl

/-- C7 counterexample: a non-admin principal deleting their own account
id is stopped by the admin-only gate (403), not by the
`SelfDeletionForbidden` check, refuting the claim that every principal
"of any role" receives `SelfDeletionForbidden` on self-deletion. -/
theorem nonadmin_self_delete_cex :
    (deleteUser { id := 5, role := Role.user } 5
      { tasks := [], docs := [], users := [5], blobs := [],
        nextId := 6 }).1 = UserDelResult.adminRequired ∧
    (deleteUser { id := 5, role := Role.user } 5
      { tasks := [], docs := [], users := [5], blobs := [],
        nextId := 6 }).1 ≠ UserDelResult.selfDeletionForbidden := by
  constructor <;> decide

/-- C7 amended: the delete-user route is admin-only; an admin invoking
it with their own identifier receives `SelfDeletionForbidden` with the
store unchanged, while a non-admin principal is rejected by the
admin-only gate (403) before the self-deletion check ever runs, also
with the store unchanged. -/
theorem self_delete_admin_gate (p : Principal) (st : St) :
    (p.role = Role.admin →
      deleteUser p p.id st = (UserDelResult.selfDeletionForbidden, st)) ∧
    (p.role ≠ Role.admin →
      deleteUser p p.id st = (UserDelResult.adminRequired, st)) := by
  constructor <;> intro h <;> simp [deleteUser, h]

/-- C7 witness: admin 5 self-deleting gets `SelfDeletionForbidden`;
user 6 self-deleting is stopped by the admin gate. -/
theorem self_delete_admin_gate_witness :
    deleteUser { id := 5, role := Role.admin } 5 wSt =
      (UserDelResult.selfDeletionForbidden, wSt) ∧
    deleteUser { id := 6, role := Role.user } 6 wSt =
      (UserDelResult.adminRequired, wSt) :=
  ⟨(self_delete_admin_gate { id := 5, role := Role.admin } wSt).1 rfl,
   (self_delete_admin_gate { id := 6, role := Role.user } wSt).2
     (by decide)⟩

/-- C6: the stored `createdBy` of a created task is the requester's id;
a `createdBy` field in the create or update payload is ignored (the
handlers never destructure it, so the whole run is unchanged by it); and
every task surviving an update keeps the `createdBy` of the stored task
with its id, so `createdBy` is never mutated after creation. -/
theorem created_by_forced_and_immutable :
    (∀ (p : Principal) (cmd : CreateCmd) (now : Int) (st : St) (t : Task)
      (st2 : St) (ev : List Event),
      createTask p cmd now st = (CreateRes.ok t, st2, ev) →
        t.createdBy = p.id) ∧
    (∀ (p : Principal) (cmd : CreateCmd) (c : Option Nat) (now : Int)
      (st : St),
      createTask p { cmd with createdBy := c } now st =
        createTask p cmd now st) ∧
    (∀ (p : Principal) (tid : Nat) (cmd : UpdateCmd) (c : Option Nat)
      (now : Int) (st : St),
      updateTask p tid { cmd with createdBy := c } now st =
        updateTask p tid cmd now st) ∧
    (∀ (p : Principal) (tid : Nat) (cmd : UpdateCmd) (now : Int) (st : St)
      (u : Task), u ∈ (updateTask p tid cmd now st).2.1.tasks →
        ∃ u0, u0 ∈ st.tasks ∧ u0.id = u.id ∧ u.createdBy = u0.createdBy) := by
  refine ⟨?_, ?_, ?_, ?_⟩
  · intro p cmd now st t st2 ev hrun
    unfold createTask at hrun
    split at hrun
    · simp at hrun
    · split at hrun
      · simp at hrun
      · split at hrun
        · simp at hrun
        · split at hrun
          · simp at hrun
          · dsimp only at hrun
            split at hrun
            · simp at hrun
            · simp only [Prod.mk.injEq, CreateRes.ok.injEq] at hrun
              rw [← hrun.1]
  · intro p cmd c now st
    rfl
  · intro p tid cmd c now st
    rfl
  · intro p tid cmd now st u hu
    unfold updateTask at hu
    split at hu
    · exact ⟨u, hu, rfl, rfl⟩
    · split at hu
      · exact ⟨u, hu, rfl, rfl⟩
      · split at hu
        · exact ⟨u, hu, rfl, rfl⟩
        · split at hu
          · exact ⟨u, hu, rfl, rfl⟩
          · rename_i task hfind
            have htmem : task ∈ st.tasks := findTask_mem st tid task hfind
            split at hu
            · exact ⟨u, hu, rfl, rfl⟩
            · split at hu
              · exact ⟨u, hu, rfl, rfl⟩
              · dsimp only at hu
                split at hu
                · exact ⟨u, hu, rfl, rfl⟩
                · split at hu
                  · split at hu
                    · rcases mem_replaceTask _ _ _ _ hu with h | ⟨hmem, _⟩
                      · exact ⟨task, htmem, by subst h; rfl, by subst h; rfl⟩
                      · exact ⟨u, hmem, rfl, rfl⟩
                    · rw [replaceTask_replaceTask st.tasks tid _ _
                        (show (applyFields task cmd).id = tid from
                          findTask_id st tid task hfind)] at hu
                      rcases mem_replaceTask _ _ _ _ hu with h | ⟨hmem, _⟩
                      · exact ⟨task, htmem, by subst h; rfl, by subst h; rfl⟩
                      · exact ⟨u, hmem, rfl, rfl⟩
                  · rcases mem_replaceTask _ _ _ _ hu with h | ⟨hmem, _⟩
                    · exact ⟨task, htmem, by subst h; rfl, by subst h; rfl⟩
                    · exact ⟨u, hmem, rfl, rfl⟩

/-- C6 witness: a create request by user 3 smuggling `createdBy := 9`
still stores 3 as creator of the resulting task. -/
theorem created_by_forced_and_immutable_witness :
    ({ id := 20, title := "T2", description := "",
       status := Status.pending, priority := Priority.medium,
       dueDate := some 50, assignedTo := none, createdBy := 3,
       documents := [] } : Task).createdBy = 3 :=
  created_by_forced_and_immutable.1 { id := 3, role := Role.user }
    { title := "T2", description := none, status := none, priority := none,
      dueDate := some 50, assignedTo := none, createdBy := some 9,
      files := [] } 0 wSt _ _ _ rfl

/-- C10: the Mongoose `dueDate` validator runs on every save, so an
update of a task whose stored due date is in the past fails at the save
(caught and reported as an error, the store unchanged and nothing
emitted) even when the update does not touch `dueDate` — for example a
status-only update of an overdue task. -/
theorem overdue_update_rejected (p : Principal) (tid : Nat)
    (cmd : UpdateCmd) (now : Int) (st : St) (t : Task) (d : Int)
    (hfind : findTask st tid = some t)
    (hdue : t.dueDate = some d) (hpast : d ≤ now)
    (hnotouch : cmd.dueDate = none)
    (hfilecount : cmd.files.length ≤ 3)
    (hmime : ∀ f ∈ cmd.files, f.mimeType = "application/pdf")
    (hvalid : updateCmdValid cmd = true)
    (hperm : p.role = Role.admin ∨ t.createdBy = p.id ∨
      t.assignedTo = some p.id)
    (hassigned : ∀ u, cmd.assignedTo = some (some u) →
      st.users.contains u = true) :
    updateTask p tid cmd now st = (UpdResult.saveError, st, []) := by
  unfold updateTask
  rw [if_neg (by omega)]
  rw [if_neg (by
    simp only [List.any_eq_true, not_exists, not_and, Bool.not_eq_true]
    intro f hf
    simp [hmime f hf])]
  rw [if_neg (by simp [hvalid])]
  rw [hfind]
  dsimp only
  rw [if_neg (by
    intro hcon
    rcases hperm with h | h | h
    · exact hcon.1 h
    · exact hcon.2.1 h
    · exact hcon.2.2 h)]
  rw [if_neg (by
    unfold badUpdateRef
    cases ha : cmd.assignedTo with
    | none => simp
    | some v =>
      cases v with
      | none => simp
      | some u =>
        show ¬((!st.users.contains u) = true)
        rw [hassigned u ha]
        simp)]
  rw [if_pos (by
    unfold taskSaveValid applyFields
    simp only [hnotouch, Option.getD_none]
    rw [hdue]
    simp only [Bool.and_eq_true, decide_eq_true_eq, not_and]
    intro _
    omega)]

/-- Example overdue task: stored due date 100, never completed. -/
def oTask : Task :=
  { id := 30, title := "T3", description := "", status := Status.pending,
    priority := Priority.medium, dueDate := some 100, assignedTo := none,
    createdBy := 1, documents := [] }

/-- Example store holding only the overdue task. -/
def oSt : St :=
  { tasks := [oTask], docs := [], users := [1], blobs := [], nextId := 31 }

/-- Example status-only update payload. -/
def oCmd : UpdateCmd :=
  { title := none, description := none, status := some Status.completed,
    priority := none, dueDate := none, assignedTo := none,
    createdBy := none, files := [] }

/-- C10 witness: at time 200, creator 1 marking overdue task 30 completed
is rejected at the save with the store unchanged and no event. -/
theorem overdue_update_rejected_witness :
    updateTask { id := 1, role := Role.user } 30 oCmd 200 oSt =
      (UpdResult.saveError, oSt, []) :=
  overdue_update_rejected { id := 1, role := Role.user } 30 oCmd 200 oSt
    oTask 100 rfl rfl (by decide) rfl (by decide)
    (by intro f hf; cases hf) rfl (by right; left; rfl)
    (by intro u h; cases h)

/-- Example document records owned by task 10. -/
def fDocA : TaskDocument :=
  { id := 11, taskId := 10, filePath := "a.pdf", uploadedBy := 1 }

/-- Second example document of task 10. -/
def fDocB : TaskDocument :=
  { id := 12, taskId := 10, filePath := "b.pdf", uploadedBy := 1 }

/-- Third example document of task 10, uploaded by the assignee. -/
def fDocC : TaskDocument :=
  { id := 13, taskId := 10, filePath := "c.pdf", uploadedBy := 2 }

/-- Task 10 already holding its 3 documents. -/
def fTask : Task := { wTask with documents := [11, 12, 13] }

/-- Store in which task 10 is at the document cap. -/
def fSt : St :=
  { tasks := [fTask], docs := [fDocA, fDocB, fDocC], users := [1, 2, 3],
    blobs := ["a.pdf", "b.pdf", "c.pdf"], nextId := 20 }

/-- Update payload renaming task 10 and attaching one more PDF. -/
def fCmd : UpdateCmd :=
  { title := some "renamed", description := none, status := none,
    priority := none, dueDate := none, assignedTo := none,
    createdBy := none,
    files := [{ path := "d.pdf", mimeType := "application/pdf" }] }

/-- Characterization of a `PUT /api/tasks/:id` run that trips the
document-count cap: every request-level check passes, the field changes
are saved, and then the count check rejects with 400 before any document
is created and before any event is emitted. -/
theorem updateTask_doclimit_run (p : Principal) (tid : Nat)
    (cmd : UpdateCmd) (now : Int) (st : St) (t : Task)
    (hfind : findTask st tid = some t)
    (hfilecount : cmd.files.length ≤ 3)
    (hmime : ∀ f ∈ cmd.files, f.mimeType = "application/pdf")
    (hvalid : updateCmdValid cmd = true)
    (hperm : p.role = Role.admin ∨ t.createdBy = p.id ∨
      t.assignedTo = some p.id)
    (hassigned : ∀ u, cmd.assignedTo = some (some u) →
      st.users.contains u = true)
    (hsave : taskSaveValid (applyFields t cmd) now = true)
    (hne : cmd.files.length ≠ 0)
    (hcount : (st.docs.filter (fun d => decide (d.taskId = tid))).length +
      cmd.files.length > 3) :
    updateTask p tid cmd now st =
      (UpdResult.docLimitExceeded,
        { st with tasks := replaceTask st.tasks tid (applyFields t cmd) },
        []) := by
  unfold updateTask
  rw [if_neg (by omega)]
  rw [if_neg (by
    simp only [List.any_eq_true, not_exists, not_and, Bool.not_eq_true]
    intro f hf
    simp [hmime f hf])]
  rw [if_neg (by simp [hvalid])]
  rw [hfind]
  dsimp only
  rw [if_neg (by
    intro hcon
    rcases hperm with h | h | h
    · exact hcon.1 h
    · exact hcon.2.1 h
    · exact hcon.2.2 h)]
  rw [if_neg (by
    unfold badUpdateRef
    cases ha : cmd.assignedTo with
    | none => simp
    | some v =>
      cases v with
      | none => simp
      | some u =>
        show ¬((!st.users.contains u) = true)
        rw [hassigned u ha]
        simp)]
  rw [if_neg (by simp [hsave])]
  rw [if_pos hne]
  rw [if_pos hcount]

/-- C4 counterexample: on task 10 holding 3 documents, an update carrying
a new title and one more PDF is rejected with `DocumentLimitExceeded`,
yet the new title has been persisted — refuting the claim that the whole
mutation is rejected atomically. -/
theorem doc_limit_keeps_field_changes_cex :
    (updateTask { id := 1, role := Role.user } 10 fCmd 0 fSt).1 =
      UpdResult.docLimitExceeded ∧
    (findTask fSt 10).map (fun t => t.title) = some "T1" ∧
    (findTask (updateTask { id := 1, role := Role.user } 10 fCmd 0
      fSt).2.1 10).map (fun t => t.title) = some "renamed" := by
  refine ⟨rfl, rfl, rfl⟩

/-- C4 amended: when an update carrying field changes and files trips
the document cap, the request is rejected with `DocumentLimitExceeded`
and no document record is attached, but the rejection is not atomic: the
field changes were already saved (the stored task is the field-applied
version), and no event is emitted. -/
theorem doc_limit_rejection_not_atomic (p : Principal) (tid : Nat)
    (cmd : UpdateCmd) (now : Int) (st : St) (t : Task)
    (hfind : findTask st tid = some t)
    (hfilecount : cmd.files.length ≤ 3)
    (hmime : ∀ f ∈ cmd.files, f.mimeType = "application/pdf")
    (hvalid : updateCmdValid cmd = true)
    (hperm : p.role = Role.admin ∨ t.createdBy = p.id ∨
      t.assignedTo = some p.id)
    (hassigned : ∀ u, cmd.assignedTo = some (some u) →
      st.users.contains u = true)
    (hsave : taskSaveValid (applyFields t cmd) now = true)
    (hne : cmd.files.length ≠ 0)
    (hcount : (st.docs.filter (fun d => decide (d.taskId = tid))).length +
      cmd.files.length > 3) :
    (updateTask p tid cmd now st).1 = UpdResult.docLimitExceeded ∧
    (updateTask p tid cmd now st).2.1.docs = st.docs ∧
    (updateTask p tid cmd now st).2.2 = [] ∧
    findTask (updateTask p tid cmd now st).2.1 tid =
      some (applyFields t cmd) := by
  have hrun := updateTask_doclimit_run p tid cmd now st t hfind hfilecount
    hmime hvalid hperm hassigned hsave hne hcount
  rw [hrun]
  refine ⟨rfl, rfl, rfl, ?_⟩
  show (replaceTask st.tasks tid (applyFields t cmd)).find?
    (fun u => u.id = tid) = some (applyFields t cmd)
  exact find?_replaceTask st.tasks tid (applyFields t cmd)
    (findTask_id st tid t hfind) (by rw [show st.tasks.find?
      (fun u => u.id = tid) = some t from hfind]; rfl)

/-- C4 witness: the concrete rejected update on full task 10 leaves the
document records unchanged, emits nothing, and stores the new title. -/
theorem doc_limit_rejection_not_atomic_witness :
    (updateTask { id := 1, role := Role.user } 10 fCmd 0 fSt).1 =
      UpdResult.docLimitExceeded ∧
    (updateTask { id := 1, role := Role.user } 10 fCmd 0 fSt).2.1.docs =
      fSt.docs ∧
    (updateTask { id := 1, role := Role.user } 10 fCmd 0 fSt).2.2 = [] ∧
    findTask (updateTask { id := 1, role := Role.user } 10 fCmd 0
      fSt).2.1 10 = some (applyFields fTask fCmd) :=
  doc_limit_rejection_not_atomic { id := 1, role := Role.user } 10 fCmd 0
    fSt fTask rfl (by decide) (by decide) rfl (by right; left; rfl)
    (by intro u h; cases h) rfl (by decide) (by decide)

theorem updateEvents_characterization (oldA A : Option Nat)
    (users : List Nat) (tid : Nat) :
    (∀ w, Event.taskAssigned (JsStr.idStr w) tid ∉
        updateEvents (oldA.map JsStr.idStr)
          ((populateAssigned A users).map JsStr.docStr) tid ∧
      Event.taskUpdated (JsStr.idStr w) tid ∉
        updateEvents (oldA.map JsStr.idStr)
          ((populateAssigned A users).map JsStr.docStr) tid) ∧
    (∀ v, A = some v → v ∈ users →
      updateEvents (oldA.map JsStr.idStr)
        ((populateAssigned A users).map JsStr.docStr) tid =
        [Event.taskAssigned (JsStr.docStr v) tid,
         Event.taskUpdated (JsStr.docStr v) tid]) ∧
    (A = none →
      updateEvents (oldA.map JsStr.idStr)
        ((populateAssigned A users).map JsStr.docStr) tid = []) ∧
    (∀ v, A = some v → v ∉ users →
      updateEvents (oldA.map JsStr.idStr)
        ((populateAssigned A users).map JsStr.docStr) tid = []) := by
  unfold populateAssigned updateEvents
  cases A with
  | none => simp
  | some v =>
    dsimp only
    by_cases hin : users.contains v = true
    · rw [if_pos hin]
      dsimp only [Option.map_some']
      rw [if_pos (by
        cases oldA with
        | none => simp
        | some w => simp)]
      refine ⟨?_, ?_, ?_, ?_⟩
      · intro w
        constructor <;> intro hmem <;> simp at hmem
      · intro v2 hv2 _
        cases hv2
        rfl
      · intro h
        cases h
      · intro v2 hv2 hnotin
        cases hv2
        exact absurd (by simpa [List.contains] using hin) hnotin
    · rw [if_neg hin]
      refine ⟨?_, ?_, ?_, ?_⟩
      · intro w
        constructor <;> intro hmem <;> simp at hmem
      · intro v2 hv2 hmem
        cases hv2
        exact absurd (by simpa [List.contains] using hmem) hin
      · intro h
        cases h
      · intro v2 hv2 _
        rfl

/-- Payload by which user 1 reassigns task 10 to user 3. -/
def rCmd : UpdateCmd :=
  { title := none, description := none, status := none, priority := none,
    dueDate := none, assignedTo := some (some 3), createdBy := none,
    files := [] }

/-- C5 counterexample: user 1 reassigns task 10 from user 2 to user 3
(so the previous value and the updater both differ from the new
assignee); the update succeeds, but because the emission code renders
`newAssignedTo` from the populated assignee document, both events are
addressed to the inspect-string room, which is not user 3's room — so
no `TaskAssigned` (and no `TaskUpdated`) is emitted to the new assignee
U2, refuting the claim. -/
theorem reassignment_not_delivered_cex :
    (updateTask { id := 1, role := Role.user } 10 rCmd 0 wSt).1 =
      UpdResult.ok ∧
    (updateTask { id := 1, role := Role.user } 10 rCmd 0 wSt).2.2 =
      [Event.taskAssigned (JsStr.docStr 3) 10,
       Event.taskUpdated (JsStr.docStr 3) 10] ∧
    JsStr.docStr 3 ≠ JsStr.idStr 3 := by
  refine ⟨rfl, rfl, by decide⟩

/-- C5 amended: on a successful update of an existing task, with `u` the
stored task afterwards: `newAssignedTo` is the populated assignee
document's inspect string, so the change comparison against the old id
rendering is always true and the rule degenerates to presence — when the
resulting `assignedTo` is a user that still exists, exactly one
`taskAssigned` and one `taskUpdated` are emitted (regardless of the
previous value or the updater), both addressed to the inspect-string
room, which is no user's room, so no user — not the new assignee, the
previous assignee, or the updater — receives any event; when the
resulting `assignedTo` is null or its user record no longer exists,
nothing is emitted. -/
theorem update_notification_events (p : Principal) (tid : Nat)
    (cmd : UpdateCmd) (now : Int) (st : St) (t : Task) (st2 : St)
    (ev : List Event) (hfind : findTask st tid = some t)
    (hrun : updateTask p tid cmd now st = (UpdResult.ok, st2, ev)) :
    ∃ u, findTask st2 tid = some u ∧
      (∀ w, Event.taskAssigned (JsStr.idStr w) tid ∉ ev ∧
        Event.taskUpdated (JsStr.idStr w) tid ∉ ev) ∧
      (∀ v, u.assignedTo = some v → v ∈ st.users →
        ev = [Event.taskAssigned (JsStr.docStr v) tid,
          Event.taskUpdated (JsStr.docStr v) tid]) ∧
      (u.assignedTo = none → ev = []) ∧
      (∀ v, u.assignedTo = some v → v ∉ st.users → ev = []) := by
  have hsome : (st.tasks.find? (fun u => u.id = tid)).isSome := by
    rw [show st.tasks.find? (fun u => u.id = tid) = some t from hfind]
    rfl
  have htid : t.id = tid := findTask_id st tid t hfind
  have hch := updateEvents_characterization t.assignedTo
    (applyFields t cmd).assignedTo st.users tid
  unfold updateTask at hrun
  split at hrun
  · simp at hrun
  · split at hrun
    · simp at hrun
    · split at hrun
      · simp at hrun
      · rw [hfind] at hrun
        dsimp only at hrun
        split at hrun
        · simp at hrun
        · split at hrun
          · simp at hrun
          · split at hrun
            · simp at hrun
            · split at hrun
              · split at hrun
                · simp at hrun
                · simp only [Prod.mk.injEq] at hrun
                  obtain ⟨-, hst2, hev⟩ := hrun
                  refine ⟨{ applyFields t cmd with
                    documents := (applyFields t cmd).documents ++
                      (mkDocs cmd.files st.nextId tid p.id).map
                        (fun d => d.id) }, ?_, ?_⟩
                  · rw [← hst2]
                    show (replaceTask (replaceTask st.tasks tid
                      (applyFields t cmd)) tid _).find?
                        (fun u => u.id = tid) = some _
                    rw [replaceTask_replaceTask st.tasks tid
                      (applyFields t cmd) _
                      (show (applyFields t cmd).id = tid from htid)]
                    exact find?_replaceTask st.tasks tid _ htid hsome
                  · rw [← hev]
                    exact hch
              · simp only [Prod.mk.injEq] at hrun
                obtain ⟨-, hst2, hev⟩ := hrun
                refine ⟨applyFields t cmd, ?_, ?_⟩
                · rw [← hst2]
                  exact find?_replaceTask st.tasks tid _ htid hsome
                · rw [← hev]
                  exact hch

/-- C5 witness: for the concrete reassignment of task 10 from user 2 to
user 3 by user 1, the event characterization holds for the stored task
afterwards. -/
theorem update_notification_events_witness :
    ∃ u, findTask (updateTask { id := 1, role := Role.user } 10 rCmd 0
        wSt).2.1 10 = some u ∧
      (∀ w, Event.taskAssigned (JsStr.idStr w) 10 ∉
          (updateTask { id := 1, role := Role.user } 10 rCmd 0
            wSt).2.2 ∧
        Event.taskUpdated (JsStr.idStr w) 10 ∉
          (updateTask { id := 1, role := Role.user } 10 rCmd 0
            wSt).2.2) ∧
      (∀ v, u.assignedTo = some v → v ∈ wSt.users →
        (updateTask { id := 1, role := Role.user } 10 rCmd 0 wSt).2.2 =
          [Event.taskAssigned (JsStr.docStr v) 10,
           Event.taskUpdated (JsStr.docStr v) 10]) ∧
      (u.assignedTo = none →
        (updateTask { id := 1, role := Role.user } 10 rCmd 0 wSt).2.2 =
          []) ∧
      (∀ v, u.assignedTo = some v → v ∉ wSt.users →
        (updateTask { id := 1, role := Role.user } 10 rCmd 0 wSt).2.2 =
          []) :=
  update_notification_events { id := 1, role := Role.user } 10 rCmd 0
    wSt wTask _ _ rfl rfl

/-- C8: for an existing task and an existing document of that task,
removal is refused with 403 exactly when the requester is none of admin,
task creator, document uploader; and a successful removal deletes the
backing blob, removes the document id from the parent task's stored
`documents` list (the task record is persisted with that change), and
deletes the document record. -/
theorem document_removal_policy (p : Principal) (tid docId : Nat)
    (now : Int) (st : St) (t : Task) (d : TaskDocument)
    (hft : findTask st tid = some t)
    (hfd : findDoc st tid docId = some d) :
    ((deleteDocument p tid docId now st).1 = DocDelResult.accessDenied ↔
      ¬(p.role = Role.admin ∨ t.createdBy = p.id ∨
        d.uploadedBy = p.id)) ∧
    (∀ st2, deleteDocument p tid docId now st = (DocDelResult.ok, st2) →
      st2.blobs = st.blobs.filter (fun b => decide (b ≠ d.filePath)) ∧
      st2.docs = st.docs.filter (fun x => decide (x.id ≠ d.id)) ∧
      findTask st2 tid = some { t with
        documents := t.documents.filter (fun i => decide (i ≠ d.id)) }) := by
  have hsome : (st.tasks.find? (fun u => u.id = tid)).isSome = true := by
    rw [show st.tasks.find? (fun u => u.id = tid) = some t from hft]
    rfl
  have htid : t.id = tid := findTask_id st tid t hft
  unfold deleteDocument
  rw [hft]
  dsimp only
  rw [hfd]
  dsimp only
  constructor
  · split
    · rename_i hc
      constructor
      · intro _ hor
        rcases hor with h | h | h
        · exact hc.1 h
        · exact hc.2.1 h
        · exact hc.2.2 h
      · intro _
        rfl
    · rename_i hc
      have hor : p.role = Role.admin ∨ t.createdBy = p.id ∨
          d.uploadedBy = p.id := by
        by_cases h1 : p.role = Role.admin
        · exact Or.inl h1
        · by_cases h2 : t.createdBy = p.id
          · exact Or.inr (Or.inl h2)
          · by_cases h3 : d.uploadedBy = p.id
            · exact Or.inr (Or.inr h3)
            · exact absurd ⟨h1, h2, h3⟩ hc
      split
      · exact ⟨(fun h2 => nomatch h2), (fun hnor => absurd hor hnor)⟩
      · exact ⟨(fun h2 => nomatch h2), (fun hnor => absurd hor hnor)⟩
  · intro st2 hrun
    split at hrun
    · simp at hrun
    · split at hrun
      · simp at hrun
      · simp only [Prod.mk.injEq] at hrun
        obtain ⟨-, hst2⟩ := hrun
        rw [← hst2]
        refine ⟨rfl, rfl, ?_⟩
        exact find?_replaceTask st.tasks tid _ htid hsome

/-- C8 witness: assignee 2 uploaded document 13 of task 10 and may
remove it; the blob, the task's list and the record all shed it, while
unrelated user 3 is refused. -/
theorem document_removal_policy_witness :
    ((deleteDocument { id := 3, role := Role.user } 10 13 0 fSt).1 =
      DocDelResult.accessDenied ↔
      ¬(({ id := 3, role := Role.user } : Principal).role = Role.admin ∨
        fTask.createdBy = 3 ∨ fDocC.uploadedBy = 3)) ∧
    ((deleteDocument { id := 2, role := Role.user } 10 13 0 fSt).2.blobs =
      fSt.blobs.filter (fun b => decide (b ≠ fDocC.filePath)) ∧
      (deleteDocument { id := 2, role := Role.user } 10 13 0
        fSt).2.docs =
        fSt.docs.filter (fun x => decide (x.id ≠ fDocC.id)) ∧
      findTask (deleteDocument { id := 2, role := Role.user } 10 13 0
        fSt).2 10 = some { fTask with
          documents := fTask.documents.filter
            (fun i => decide (i ≠ fDocC.id)) }) :=
  ⟨(document_removal_policy { id := 3, role := Role.user } 10 13 0 fSt
      fTask fDocC rfl rfl).1,
   (document_removal_policy { id := 2, role := Role.user } 10 13 0 fSt
      fTask fDocC rfl rfl).2 _ rfl⟩

/-- C3: the document cap holds globally.  First, the store invariant —
which contains `documents.length ≤ 3` for every task — is preserved by
every request (create, update, delete, document removal), so no sequence
of operations ever pushes a task past 3 documents.  Second, whenever an
update's files would push an existing task past the cap, the update does
not succeed and attaches nothing: the document collection is unchanged
and the task's stored document list is unchanged.  Third, when such an
over-cap attach passes all the preceding request checks, the reported
error is precisely `DocumentLimitExceeded`. -/
theorem document_cap_invariant :
    (∀ r st, Inv st → Inv (applyRequest r st)) ∧
    (∀ (p : Principal) (tid : Nat) (cmd : UpdateCmd) (now : Int) (st : St)
      (t : Task), Inv st → findTask st tid = some t →
      t.documents.length + cmd.files.length > 3 →
      ((updateTask p tid cmd now st).1 ≠ UpdResult.ok ∧
       (updateTask p tid cmd now st).2.1.docs = st.docs ∧
       ∀ u, findTask (updateTask p tid cmd now st).2.1 tid = some u →
         u.documents = t.documents)) ∧
    (∀ (p : Principal) (tid : Nat) (cmd : UpdateCmd) (now : Int) (st : St)
      (t : Task), Inv st → findTask st tid = some t →
      cmd.files.length ≤ 3 →
      (∀ f ∈ cmd.files, f.mimeType = "application/pdf") →
      updateCmdValid cmd = true →
      (p.role = Role.admin ∨ t.createdBy = p.id ∨
        t.assignedTo = some p.id) →
      (∀ u, cmd.assignedTo = some (some u) →
        st.users.contains u = true) →
      taskSaveValid (applyFields t cmd) now = true →
      cmd.files.length ≠ 0 →
      t.documents.length + cmd.files.length > 3 →
      (updateTask p tid cmd now st).1 = UpdResult.docLimitExceeded) := by
  refine ⟨fun r st h => inv_applyRequest r st h, ?_, ?_⟩
  · intro p tid cmd now st t hInv hfind hover
    have htid : t.id = tid := findTask_id st tid t hfind
    have htmem : t ∈ st.tasks := findTask_mem st tid t hfind
    have hsome : (st.tasks.find? (fun u => u.id = tid)).isSome = true := by
      rw [show st.tasks.find? (fun u => u.id = tid) = some t from hfind]
      rfl
    obtain ⟨h1, h2, h3, h4, h5, h6, h7⟩ := hInv
    have hlen : t.documents.length =
        (st.docs.filter (fun d => decide (d.taskId = tid))).length := by
      rw [h6 t htmem, List.length_map, htid]
    rcases hrun : updateTask p tid cmd now st with ⟨r, st2, ev⟩
    unfold updateTask at hrun
    split at hrun
    · simp only [Prod.mk.injEq] at hrun
      obtain ⟨hr, hst2, -⟩ := hrun
      subst hr
      subst hst2
      refine ⟨(fun hc => nomatch hc), rfl, ?_⟩
      intro u hu
      rw [hfind] at hu
      cases hu
      rfl
    · split at hrun
      · simp only [Prod.mk.injEq] at hrun
        obtain ⟨hr, hst2, -⟩ := hrun
        subst hr
        subst hst2
        refine ⟨(fun hc => nomatch hc), rfl, ?_⟩
        intro u hu
        rw [hfind] at hu
        cases hu
        rfl
      · split at hrun
        · simp only [Prod.mk.injEq] at hrun
          obtain ⟨hr, hst2, -⟩ := hrun
          subst hr
          subst hst2
          refine ⟨(fun hc => nomatch hc), rfl, ?_⟩
          intro u hu
          rw [hfind] at hu
          cases hu
          rfl
        · rw [hfind] at hrun
          dsimp only at hrun
          split at hrun
          · simp only [Prod.mk.injEq] at hrun
            obtain ⟨hr, hst2, -⟩ := hrun
            subst hr
            subst hst2
            refine ⟨(fun hc => nomatch hc), rfl, ?_⟩
            intro u hu
            rw [hfind] at hu
            cases hu
            rfl
          · split at hrun
            · simp only [Prod.mk.injEq] at hrun
              obtain ⟨hr, hst2, -⟩ := hrun
              subst hr
              subst hst2
              refine ⟨(fun hc => nomatch hc), rfl, ?_⟩
              intro u hu
              rw [hfind] at hu
              cases hu
              rfl
            · split at hrun
              · simp only [Prod.mk.injEq] at hrun
                obtain ⟨hr, hst2, -⟩ := hrun
                subst hr
                subst hst2
                refine ⟨(fun hc => nomatch hc), rfl, ?_⟩
                intro u hu
                rw [hfind] at hu
                cases hu
                rfl
              · split at hrun
                · split at hrun
                  · simp only [Prod.mk.injEq] at hrun
                    obtain ⟨hr, hst2, -⟩ := hrun
                    subst hr
                    subst hst2
                    refine ⟨(fun hc => nomatch hc), rfl, ?_⟩
                    intro u hu
                    have heq : (replaceTask st.tasks tid
                        (applyFields t cmd)).find?
                        (fun u => u.id = tid) = some (applyFields t cmd) :=
                      find?_replaceTask st.tasks tid _ htid hsome
                    rw [show findTask { st with
                        tasks := replaceTask st.tasks tid
                          (applyFields t cmd) } tid =
                        some (applyFields t cmd) from heq] at hu
                    cases hu
                    rfl
                  · rename_i hfiles0 hcount
                    exfalso
                    rw [Nat.not_lt] at hcount
                    omega
                · rename_i hfiles0
                  exfalso
                  have hz : cmd.files.length = 0 := by
                    by_cases hc : cmd.files.length = 0
                    · exact hc
                    · exact absurd hc hfiles0
                  have := h7 t htmem
                  omega
  · intro p tid cmd now st t hInv hfind hfilecount hmime hvalid hperm
      hassigned hsave hne hover
    have htid : t.id = tid := findTask_id st tid t hfind
    have htmem : t ∈ st.tasks := findTask_mem st tid t hfind
    obtain ⟨h1, h2, h3, h4, h5, h6, h7⟩ := hInv
    have hlen : t.documents.length =
        (st.docs.filter (fun d => decide (d.taskId = tid))).length := by
      rw [h6 t htmem, List.length_map, htid]
    have hrun := updateTask_doclimit_run p tid cmd now st t hfind
      hfilecount hmime hvalid hperm hassigned hsave hne (by omega)
    rw [hrun]

/-- C3 witness: the invariant survives the concrete rejected over-cap
update on the full task 10, and that update reports
`DocumentLimitExceeded`. -/
theorem document_cap_invariant_witness :
    Inv (applyRequest (Request.updateReq { id := 1, role := Role.user }
      10 fCmd 0) fSt) ∧
    (updateTask { id := 1, role := Role.user } 10 fCmd 0 fSt).1 =
      UpdResult.docLimitExceeded :=
  ⟨document_cap_invariant.1 _ fSt
     (by refine ⟨?_, ?_, ?_, ?_, ?_, ?_, ?_⟩ <;> decide),
   document_cap_invariant.2.2 { id := 1, role := Role.user } 10 fCmd 0
     fSt fTask (by refine ⟨?_, ?_, ?_, ?_, ?_, ?_, ?_⟩ <;> decide)
     rfl (by decide) (by decide) rfl
     (by right; left; rfl) (by intro u h; cases h) rfl (by decide)
     (by decide)⟩

end TaskApi
